import Mathlib

/-!
Verification of the tasky repository (a personal task tracker).

The development shallowly embeds the two core Python modules:

* `src/parser.py` — natural-language due-date parsing (`parse_due_date`) and
  heuristic priority inference (`infer_priority`);
* `src/tracker.py` — the task repository (`add_task`, `list_tasks`, `get_task`,
  `complete_task`, `delete_task`, `update_task`, `daily_summary`,
  `search_tasks`).

Modelling conventions:

* Calendar dates are represented by their Python `date.toordinal()` value
  (a `Nat`; `0001-01-01` has ordinal 1).  Conversions between ordinals and
  `(year, month, day)` triples use the standard civil-calendar algorithms.
* Python strings are Lean `String`s; `str.lower()` is `Char.toLower` mapping,
  and the `in` substring test is an explicit character-list scan.
* The persisted collection is an explicit `List Task` threaded through every
  operation; "persist" is modelled by a `saved` flag where a claim needs it.
* `datetime.utcnow()` timestamps and fresh uuids are nondeterministic inputs,
  so they are explicit parameters (`now`, `freshId`).
* Python exceptions that the tracker can actually raise are modelled by an
  explicit error constructor (`UpdateRes.attrError` for the `AttributeError`
  raised by `NoneType.isoformat`, `none` for the `ValueError` that
  `daily_summary` hits on a malformed `completed_at`).
-/

namespace Tasky

/-! ## String helpers (Python `str.lower`, `str.strip`, `in`) -/

/-- Python `needle in hay` restricted to character lists: Boolean prefix test. -/
def prefixChars : List Char → List Char → Bool
  | [], _ => true
  | _ :: _, [] => false
  | a :: as, b :: bs => a == b && prefixChars as bs

/-- Python `needle in hay` on character lists: substring occurrence test. -/
def substrChars (ndl : List Char) : List Char → Bool
  | [] => prefixChars ndl []
  | c :: rest => prefixChars ndl (c :: rest) || substrChars ndl rest

/-- Python `needle in hay` on strings. -/
def substrOf (ndl hay : String) : Bool :=
  substrChars ndl.toList hay.toList

/-- Python `s.lower()` (ASCII lowering, which is all the sources use). -/
def lowerStr (s : String) : String :=
  String.mk (s.data.map Char.toLower)

def isSpaceChar (c : Char) : Bool :=
  c == ' ' || c == '\t' || c == '\n' || c == '\r'

/-- Python `s.strip()`: drop leading and trailing whitespace. -/
def stripChars (cs : List Char) : List Char :=
  ((cs.dropWhile isSpaceChar).reverse.dropWhile isSpaceChar).reverse

/-- `text.lower().strip()` from `parse_due_date`. -/
def pyLowerStrip (s : String) : String :=
  String.mk (stripChars (s.data.map Char.toLower))

/-! ## Calendar arithmetic (Python `datetime.date` on ordinals)

`daysFromCivil`/`civilFromDays` are the standard civil-calendar conversions,
shifted so that they agree with Python ordinals (`date(1,1,1).toordinal() = 1`).
-/

def isLeapYear (y : Nat) : Bool :=
  y % 4 == 0 && (y % 100 != 0 || y % 400 == 0)

def daysInMonth (y m : Nat) : Nat :=
  if m == 2 then (if isLeapYear y then 29 else 28)
  else if m == 4 || m == 6 || m == 9 || m == 11 then 30
  else 31

/-- `(year, month, day)` to Python ordinal (valid for `y ≥ 1`). -/
def daysFromCivil (y m d : Nat) : Nat :=
  let y1 := if m ≤ 2 then y - 1 else y
  let era := y1 / 400
  let yoe := y1 % 400
  let mp := if 2 < m then m - 3 else m + 9
  let doy := (153 * mp + 2) / 5 + (d - 1)
  let doe := yoe * 365 + yoe / 4 - yoe / 100 + doy
  era * 146097 + doe - 305

/-- Python ordinal to `(year, month, day)` (valid for `n ≥ 1`). -/
def civilFromDays (n : Nat) : Nat × Nat × Nat :=
  let z := n + 305
  let era := z / 146097
  let doe := z % 146097
  let yoe := (doe - doe / 1460 + doe / 36524 - doe / 146096) / 365
  let y := yoe + era * 400
  let doy := doe - (365 * yoe + yoe / 4 - yoe / 100)
  let mp := (5 * doy + 2) / 153
  let d := doy - (153 * mp + 2) / 5 + 1
  let m := if mp < 10 then mp + 3 else mp - 9
  if m ≤ 2 then (y + 1, m, d) else (y, m, d)

/-- Python `date.weekday()` on an ordinal: Monday = 0, ..., Sunday = 6. -/
def weekday (n : Nat) : Nat :=
  (n + 6) % 7

/-! ## `parse_due_date` (src/parser.py) -/

def digitsToNat (cs : List Char) : Nat :=
  cs.foldl (fun acc c => 10 * acc + (c.toNat - 48)) 0

/-- The strict-ISO branch of `parse_due_date`: the regex
`^\d{4}-\d{2}-\d{2}$` together with `date.fromisoformat` validity
(`MINYEAR = 1`; invalid calendar dates yield `none`, mirroring the
`except ValueError: pass` fall-through). -/
def isoParse (cs : List Char) : Option Nat :=
  match cs with
  | [y1, y2, y3, y4, '-', m1, m2, '-', d1, d2] =>
    if [y1, y2, y3, y4, m1, m2, d1, d2].all Char.isDigit then
      let y := digitsToNat [y1, y2, y3, y4]
      let m := digitsToNat [m1, m2]
      let d := digitsToNat [d1, d2]
      if 1 ≤ y && 1 ≤ m && m ≤ 12 && 1 ≤ d && d ≤ daysInMonth y m then
        some (daysFromCivil y m d)
      else none
    else none
  | _ => none

/-- The `re.match(r"in (\d+) days?", text)` branch: anchored at the start
only, greedy digit run, arbitrary suffix after `day`. Returns the parsed N. -/
def inDaysMatch (cs : List Char) : Option Nat :=
  match cs with
  | 'i' :: 'n' :: ' ' :: rest =>
    let ds := rest.takeWhile Char.isDigit
    if ds.isEmpty then none
    else
      match rest.dropWhile Char.isDigit with
      | ' ' :: 'd' :: 'a' :: 'y' :: _ => some (digitsToNat ds)
      | _ => none
  | _ => none

/-- The `re.match(r"in (?:a|(\d+)) weeks?", text)` branch (N defaults to 1
for the literal `a`). -/
def inWeeksMatch (cs : List Char) : Option Nat :=
  match cs with
  | 'i' :: 'n' :: ' ' :: 'a' :: ' ' :: 'w' :: 'e' :: 'e' :: 'k' :: _ => some 1
  | 'i' :: 'n' :: ' ' :: rest =>
    let ds := rest.takeWhile Char.isDigit
    if ds.isEmpty then none
    else
      match rest.dropWhile Char.isDigit with
      | ' ' :: 'w' :: 'e' :: 'e' :: 'k' :: _ => some (digitsToNat ds)
      | _ => none
  | _ => none

/-- The `days_of_week` dict of src/parser.py in insertion (= enumeration)
order; the substring scan below relies on this order. -/
def daysOfWeek : List (String × Nat) :=
  [("monday", 0), ("mon", 0),
   ("tuesday", 1), ("tue", 1), ("tues", 1),
   ("wednesday", 2), ("wed", 2),
   ("thursday", 3), ("thu", 3), ("thur", 3), ("thurs", 3),
   ("friday", 4), ("fri", 4),
   ("saturday", 5), ("sat", 5),
   ("sunday", 6), ("sun", 6)]

/-- The weekday-name branch of `parse_due_date`, given the lowered text and
the matched weekday number. `days_ahead` arithmetic is on `Int` exactly as in
the source; every returned offset is nonnegative, so `toNat` is faithful. -/
def weekdayResolve (today : Nat) (text : String) (dayNum : Nat) : Nat :=
  let daysAhead : Int := (dayNum : Int) - (weekday today : Int)
  let adjusted : Int :=
    if substrOf "next" text then
      (if daysAhead ≤ 0 then daysAhead + 7 else daysAhead) + 7
    else if substrOf "this" text then
      if daysAhead < 0 then daysAhead + 7 else daysAhead
    else
      if daysAhead ≤ 0 then daysAhead + 7 else daysAhead
  ((today : Int) + adjusted).toNat

/-- `parse_due_date(text)` from src/parser.py, with the system clock's
`date.today()` passed explicitly as an ordinal.  Returns the parsed date's
ordinal, or `none` if no rule matches. -/
def parseDueDate (today : Nat) (text0 : String) : Option Nat :=
  let text := pyLowerStrip text0
  match isoParse text.toList with
  | some d => some d
  | none =>
    if text == "today" then some today
    else if text == "tomorrow" then some (today + 1)
    else if text == "yesterday" then some (today - 1)
    else
      match inDaysMatch text.toList with
      | some n => some (today + n)
      | none =>
        match inWeeksMatch text.toList with
        | some w => some (today + 7 * w)
        | none =>
          if text == "next week" then
            let dum := (7 - weekday today) % 7
            some (today + (if dum == 0 then 7 else dum))
          else if text == "end of week" || text == "eow" then
            let dtf := (4 + 7 - weekday today) % 7
            some (if dtf == 0 then today else today + dtf)
          else if text == "end of month" || text == "eom" then
            let ymd := civilFromDays today
            let nextMonth :=
              if ymd.2.1 == 12 then daysFromCivil (ymd.1 + 1) 1 1
              else daysFromCivil ymd.1 (ymd.2.1 + 1) 1
            some (nextMonth - 1)
          else if text == "end of day" || text == "eod" then some today
          else
            match daysOfWeek.find? (fun p => substrOf p.1 text) with
            | some p => some (weekdayResolve today text p.2)
            | none => none

/-! ## `infer_priority` (src/parser.py) -/

inductive Priority
  | high
  | medium
  | low
deriving DecidableEq, Repr

inductive Status
  | pending
  | completed
  | archived
deriving DecidableEq, Repr

def highKeywords : List String :=
  ["urgent", "asap", "critical", "emergency", "important",
   "deadline", "must", "blocker", "p0", "p1"]

def mediumKeywords : List String :=
  ["soon", "this week", "review", "follow up", "check"]

def workTags : List String :=
  ["work", "job", "meeting", "project"]

/-- `infer_priority(title, due_date, tags)` from src/parser.py, with
`date.today()` passed explicitly. -/
def inferPriority (today : Nat) (title : String) (dueDate : Option Nat)
    (tags : Option (List String)) : Priority :=
  let titleLower := lowerStr title
  let tagsLower := (tags.getD []).map lowerStr
  if highKeywords.any (fun k => substrOf k titleLower || tagsLower.contains k) then
    .high
  else if (match dueDate with
           | some d => decide (d < today) || decide (d = today)
           | none => false) then
    .high
  else if (match dueDate with
           | some d => decide (today < d) && decide (d ≤ today + 2)
           | none => false) then
    .medium
  else if (match dueDate with
           | some d => decide (today < d) && decide (d ≤ today + 7)
           | none => false) then
    .medium
  else if mediumKeywords.any (fun k => substrOf k titleLower) then
    .medium
  else if workTags.any (fun k => tagsLower.contains k) then
    .medium
  else
    .low

/-! ## Data model (the task dicts of src/tracker.py)

`due` is the parsed calendar date (the tracker always stores
`due_date.isoformat()` or `None`); `created_at`/`completed_at` are the raw
timestamp strings `datetime.utcnow().isoformat() + "Z"`. -/

structure Task where
  id : String
  title : String
  status : Status
  priority : Option Priority
  due : Option Nat
  tags : List String
  notes : Option String
  created_at : String
  completed_at : Option String
deriving DecidableEq, Repr

/-! ## Stable sort (Python `list.sort(key=...)`)

Python's `list.sort` is a stable sort by key.  A stable sort by a total
preorder is unique, so the insertion sort below is extensionally equal to it;
stability and sortedness are proved further down. -/

def insertSorted (le : Task → Task → Bool) (a : Task) : List Task → List Task
  | [] => [a]
  | b :: l => if le a b then a :: b :: l else b :: insertSorted le a l

def sortTasks (le : Task → Task → Bool) : List Task → List Task
  | [] => []
  | a :: l => insertSorted le a (sortTasks le l)

/-! ## `list_tasks` (src/tracker.py) -/

structure ListArgs where
  status : Option Status
  priority : Option Priority
  tag : Option String
  due_before : Option Nat
  due_today : Bool
  overdue : Bool
  include_completed : Bool
deriving Repr

/-- The default arguments of `list_tasks` (`status="pending"`, all other
filters off). -/
def defaultListArgs : ListArgs :=
  ⟨some .pending, none, none, none, false, false, false⟩

/-- The conjunctive filter phase of `list_tasks`.  A `tag` filter with the
empty string is falsy in Python and hence a no-op, mirrored by the
`g == ""` disjunct. -/
def passesFilter (args : ListArgs) (today : Nat) (t : Task) : Bool :=
  (if args.include_completed then !(t.status == .archived)
   else match args.status with
        | some s => t.status == s
        | none => true) &&
  (match args.priority with
   | some p => t.priority == some p
   | none => true) &&
  (match args.tag with
   | some g => g == "" || t.tags.contains g
   | none => true) &&
  (if args.due_today then t.due == some today else true) &&
  (if args.overdue then
     match t.due with
     | some d => decide (d < today)
     | none => false
   else true) &&
  (match args.due_before with
   | some b => match t.due with
               | some d => decide (d ≤ b)
               | none => false
   | none => true)

/-- `priority_order = {"high": 0, "medium": 1, "low": 2, None: 3}` of
`list_tasks`. -/
def priRank : Option Priority → Nat
  | some .high => 0
  | some .medium => 1
  | some .low => 2
  | none => 3

/-- The `"9999-99-99"` sentinel of `list_tasks`'s sort key: Python compares
ISO strings, which for the representable dates (ordinals up to
`daysFromCivil 9999 12 31 = 3652059`) coincides with ordinal order, and the
sentinel string is strictly greater than every representable ISO date. -/
def dueSentinel : Nat := 4000000

def dueKey (d : Option Nat) : Nat :=
  d.getD dueSentinel

/-- The sort key tuple `(pri, due)` of `list_tasks`. -/
def taskKey (t : Task) : Nat × Nat :=
  (priRank t.priority, dueKey t.due)

/-- Python tuple comparison of the sort keys (lexicographic). -/
def taskLe (a b : Task) : Bool :=
  decide ((taskKey a).1 < (taskKey b).1) ||
    ((taskKey a).1 == (taskKey b).1 && decide ((taskKey a).2 ≤ (taskKey b).2))

/-- `list_tasks(...)` from src/tracker.py: conjunctive filters, then a
stable sort by `(priority rank, due date string)`. -/
def listTasks (args : ListArgs) (today : Nat) (ts : List Task) : List Task :=
  sortTasks taskLe (ts.filter (passesFilter args today))

/-! ## `get_task`, `search_tasks`, `add_task` (src/tracker.py) -/

/-- `get_task(task_id)`: exact id match, first occurrence. -/
def getTask (tid : String) (ts : List Task) : Option Task :=
  ts.find? (fun t => t.id == tid)

/-- `search_tasks(query)`: skips archived tasks; case-insensitive substring
match against title, notes (Python truthiness: empty notes never match) or
any tag; preserves collection order. -/
def searchTasks (q : String) (ts : List Task) : List Task :=
  let ql := lowerStr q
  ts.filter (fun t =>
    !(t.status == .archived) &&
    (substrOf ql (lowerStr t.title) ||
     (match t.notes with
      | some n => !(n == "") && substrOf ql (lowerStr n)
      | none => false) ||
     t.tags.any (fun g => substrOf ql (lowerStr g))))

/-- `add_task(title, due, priority, tags, notes)`: parses `due` when truthy
(non-`None`, non-empty), infers priority when omitted, appends the fresh
task and persists.  `freshId` and `now` stand for the uuid and
`datetime.utcnow()` results. -/
def addTask (today : Nat) (freshId now : String) (title : String)
    (due : Option String) (priority : Option Priority)
    (tags : Option (List String)) (notes : Option String)
    (ts : List Task) : Task × List Task :=
  let dueDate : Option Nat :=
    match due with
    | some s => if s == "" then none else parseDueDate today s
    | none => none
  let pri : Priority :=
    match priority with
    | some p => p
    | none => inferPriority today title dueDate tags
  let task : Task :=
    { id := freshId, title := title, status := .pending, priority := some pri,
      due := dueDate, tags := tags.getD [], notes := notes,
      created_at := now, completed_at := none }
  (task, ts ++ [task])

/-! ## `complete_task`, `delete_task`, `update_task` (src/tracker.py) -/

/-- The match predicate shared by `complete_task` and `delete_task`:
`task["id"] == task_id or task_id.lower() in task["title"].lower()`. -/
def matchesTask (tid : String) (t : Task) : Bool :=
  t.id == tid || substrOf (lowerStr tid) (lowerStr t.title)

structure CompleteRes where
  result : Option Task
  tasks : List Task
  saved : Bool
deriving DecidableEq, Repr

/-- `complete_task(task_id)`: single scan in stored order; the first task
matching by exact id or title substring is completed (idempotently: an
already-completed match is returned unchanged without persisting). -/
def completeTask (now tid : String) : List Task → CompleteRes
  | [] => ⟨none, [], false⟩
  | t :: rest =>
    if matchesTask tid t then
      if t.status == .completed then ⟨some t, t :: rest, false⟩
      else
        let t1 := { t with status := .completed, completed_at := some now }
        ⟨some t1, t1 :: rest, true⟩
    else
      let r := completeTask now tid rest
      ⟨r.result, t :: r.tasks, r.saved⟩

/-- `delete_task(task_id, archive)`: same single-scan matching as
`complete_task`; archives in place or removes the task. -/
def deleteTask (tid : String) (archive : Bool) : List Task → Option Task × List Task
  | [] => (none, [])
  | t :: rest =>
    if matchesTask tid t then
      if archive then
        let t1 := { t with status := .archived }
        (some t1, t1 :: rest)
      else (some t, rest)
    else
      let r := deleteTask tid archive rest
      (r.1, t :: r.2)

inductive UpdateRes
  | ok (result : Option Task) (tasks : List Task) (saved : Bool)
  | attrError
deriving DecidableEq, Repr

/-- The field-overwrite body of `update_task`.  The `due` branch is
`parse_due_date(due).isoformat() if due else None`: an empty string clears
the field, and a non-empty string that fails to parse makes
`parse_due_date` return `None`, on which `.isoformat()` raises
`AttributeError` — modelled by `none`. -/
def applyUpdate (today : Nat) (title : Option String) (due : Option String)
    (priority : Option Priority) (tags : Option (List String))
    (notes : Option String) (t : Task) : Option Task :=
  let t1 := match title with
            | some v => { t with title := v }
            | none => t
  let t2 : Option Task :=
    match due with
    | none => some t1
    | some s =>
      if s == "" then some { t1 with due := none }
      else (parseDueDate today s).map (fun d => { t1 with due := some d })
  t2.map (fun u =>
    let t3 := match priority with
              | some p => { u with priority := some p }
              | none => u
    let t4 := match tags with
              | some l => { t3 with tags := l }
              | none => t3
    match notes with
    | some n => { t4 with notes := some n }
    | none => t4)

/-- `update_task(task_id, ...)`: exact id match only; overwrites exactly the
provided fields and persists; `UpdateRes.attrError` is the unhandled
`AttributeError` on unparseable non-empty `due` text. -/
def updateTask (today : Nat) (tid : String) (title : Option String)
    (due : Option String) (priority : Option Priority)
    (tags : Option (List String)) (notes : Option String) :
    List Task → UpdateRes
  | [] => .ok none [] false
  | t :: rest =>
    if t.id == tid then
      match applyUpdate today title due priority tags notes t with
      | some t1 => .ok (some t1) (t1 :: rest) true
      | none => .attrError
    else
      match updateTask today tid title due priority tags notes rest with
      | .ok r rest1 s => .ok r (t :: rest1) s
      | .attrError => .attrError

/-! ## `daily_summary` (src/tracker.py) -/

structure Summary where
  date : Nat
  due_today : List Task
  overdue : List Task
  completed_today : List Task
  high_priority : List Task
  summary : String
deriving DecidableEq, Repr

/-- The calendar date of a stored `completed_at` timestamp:
`datetime.fromisoformat(ts.replace("Z", "")).date()`.  The model reads the
leading `YYYY-MM-DD`; a string it cannot read models the `ValueError` Python
would raise (the time-of-day part is not re-validated). -/
def completedAtDate (s : String) : Option Nat :=
  isoParse ((s.data.filter (fun c => !(c == 'Z'))).take 10)

/-- `priority_order.get(priority, 2)` used to sort each summary bucket. -/
def summaryRank (p : Option Priority) : Nat :=
  match p with
  | some .high => 0
  | some .medium => 1
  | some .low => 2
  | none => 2

def summaryLe (a b : Task) : Bool :=
  decide (summaryRank a.priority ≤ summaryRank b.priority)

/-- `due_today` membership test of the `daily_summary` loop
(pending and `task_due == today`). -/
def isDueToday (target : Nat) (t : Task) : Bool :=
  t.status == .pending && t.due == some target

/-- `overdue` membership test: the `elif task_due and task_due < today`
branch, reachable only when the `due_today` test above failed. -/
def isOverdueAt (target : Nat) (t : Task) : Bool :=
  t.status == .pending && !(t.due == some target) &&
    (match t.due with
     | some d => decide (d < target)
     | none => false)

/-- `high_priority` membership test: pending, priority high and
`task_due != today` (a missing due date also differs from today). -/
def isHighBucket (target : Nat) (t : Task) : Bool :=
  t.status == .pending && t.priority == some .high && !(t.due == some target)

/-- `completed_today` membership test; `none` models the `ValueError`
`datetime.fromisoformat` raises on a malformed `completed_at` (an empty
string is falsy and never parsed). -/
def completedTodayCheck (target : Nat) (t : Task) : Option Bool :=
  if t.status == .completed then
    match t.completed_at with
    | some s =>
      if s == "" then some false
      else
        match completedAtDate s with
        | some cd => some (cd == target)
        | none => none
    | none => some false
  else some false

/-- The classification loop of `daily_summary`, yielding the buckets
`(due_today, overdue, completed_today, high_priority)` in collection order;
`none` models the `ValueError` on a malformed `completed_at`. -/
def collectSummary (target : Nat) : List Task → Option (List Task × List Task × List Task × List Task)
  | [] => some ([], [], [], [])
  | t :: rest =>
    match completedTodayCheck target t, collectSummary target rest with
    | some ct, some r =>
      some ((if isDueToday target t then [t] else []) ++ r.1,
            (if isOverdueAt target t then [t] else []) ++ r.2.1,
            (if ct then [t] else []) ++ r.2.2.1,
            (if isHighBucket target t then [t] else []) ++ r.2.2.2)
    | _, _ => none

/-- `_format_summary`: one line per non-empty bucket, fixed order. -/
def formatSummary (dueToday overdue completedToday highPriority : List Task) : String :=
  let lines : List String :=
    (if overdue.isEmpty then [] else
      ["⚠️ " ++ toString overdue.length ++ " overdue task(s)"]) ++
    (if dueToday.isEmpty then [] else
      ["📅 " ++ toString dueToday.length ++ " task(s) due today"]) ++
    (if highPriority.isEmpty then [] else
      ["🔴 " ++ toString highPriority.length ++ " high priority task(s)"]) ++
    (if completedToday.isEmpty then [] else
      ["✅ " ++ toString completedToday.length ++ " completed today"])
  if lines.isEmpty then "No tasks for today. Enjoy! 🎉"
  else String.intercalate "\n" lines

/-- `daily_summary(target_date)` from src/tracker.py: classify every task
once, then stably sort `due_today`, `overdue` and `high_priority` by
priority rank (`completed_today` is left in collection order). -/
def dailySummary (target : Nat) (ts : List Task) : Option Summary :=
  match collectSummary target ts with
  | none => none
  | some r =>
    let dt := sortTasks summaryLe r.1
    let od := sortTasks summaryLe r.2.1
    let ct := r.2.2.1
    let hp := sortTasks summaryLe r.2.2.2
    some { date := target, due_today := dt, overdue := od,
           completed_today := ct, high_priority := hp,
           summary := formatSummary dt od ct hp }

/-! ## Stable-sort lemmas -/

theorem insertSorted_perm (le : Task → Task → Bool) (a : Task) (l : List Task) :
    List.Perm (insertSorted le a l) (a :: l) := by
  induction l with
  | nil => simp [insertSorted]
  | cons b l ih =>
    simp only [insertSorted]
    split
    · exact List.Perm.refl _
    · exact List.Perm.trans (List.Perm.cons b ih) (List.Perm.swap a b l)

theorem sortTasks_perm (le : Task → Task → Bool) (l : List Task) :
    List.Perm (sortTasks le l) l := by
  induction l with
  | nil => simp [sortTasks]
  | cons a l ih =>
    exact List.Perm.trans (insertSorted_perm le a (sortTasks le l)) (List.Perm.cons a ih)

theorem mem_sortTasks {le : Task → Task → Bool} {l : List Task} {t : Task} :
    t ∈ sortTasks le l ↔ t ∈ l :=
  (sortTasks_perm le l).mem_iff

theorem mem_insertSorted {le : Task → Task → Bool} {a t : Task} {l : List Task} :
    t ∈ insertSorted le a l ↔ t = a ∨ t ∈ l := by
  rw [(insertSorted_perm le a l).mem_iff, List.mem_cons]

theorem pairwise_insertSorted (le : Task → Task → Bool)
    (htot : ∀ a b, le a b = true ∨ le b a = true)
    (htrans : ∀ a b c, le a b = true → le b c = true → le a c = true)
    (a : Task) (l : List Task) (h : l.Pairwise (fun x y => le x y = true)) :
    (insertSorted le a l).Pairwise (fun x y => le x y = true) := by
  induction l with
  | nil => simp [insertSorted]
  | cons b l ih =>
    simp only [insertSorted]
    rcases List.pairwise_cons.mp h with ⟨hb, hl⟩
    split
    · rename_i hab
      refine List.pairwise_cons.mpr ⟨?_, h⟩
      intro x hx
      rcases List.mem_cons.mp hx with rfl | hx
      · exact hab
      · exact htrans a b x hab (hb x hx)
    · rename_i hab
      have hba : le b a = true := by
        rcases htot a b with hc | hc
        · exact absurd hc hab
        · exact hc
      refine List.pairwise_cons.mpr ⟨?_, ih hl⟩
      intro x hx
      rcases mem_insertSorted.mp hx with rfl | hx
      · exact hba
      · exact hb x hx

theorem pairwise_sortTasks (le : Task → Task → Bool)
    (htot : ∀ a b, le a b = true ∨ le b a = true)
    (htrans : ∀ a b c, le a b = true → le b c = true → le a c = true)
    (l : List Task) :
    (sortTasks le l).Pairwise (fun x y => le x y = true) := by
  induction l with
  | nil => simp [sortTasks]
  | cons a l ih => exact pairwise_insertSorted le htot htrans a (sortTasks le l) ih

theorem filter_insertSorted (le : Task → Task → Bool) (p : Task → Bool)
    (hcomp : ∀ a b, p a = true → le a b = false → p b = false)
    (a : Task) (l : List Task) :
    (insertSorted le a l).filter p =
      if p a then a :: l.filter p else l.filter p := by
  induction l with
  | nil =>
    cases hp : p a <;> simp [insertSorted, List.filter, hp]
  | cons b l ih =>
    simp only [insertSorted]
    cases hab : le a b with
    | true =>
      cases hp : p a <;> cases hpb : p b <;> simp [List.filter, hp, hpb]
    | false =>
      cases hp : p a with
      | true =>
        have hpb : p b = false := hcomp a b hp hab
        simp [List.filter, hpb, ih, hp]
      | false =>
        cases hpb : p b <;> simp [List.filter, hpb, ih, hp]

theorem filter_sortTasks (le : Task → Task → Bool) (p : Task → Bool)
    (hcomp : ∀ a b, p a = true → le a b = false → p b = false)
    (l : List Task) :
    (sortTasks le l).filter p = l.filter p := by
  induction l with
  | nil => rfl
  | cons a l ih =>
    cases hp : p a <;>
      simp [sortTasks, filter_insertSorted le p hcomp, ih, List.filter, hp]

theorem taskLe_total (a b : Task) : taskLe a b = true ∨ taskLe b a = true := by
  simp only [taskLe, Bool.or_eq_true, decide_eq_true_eq, Bool.and_eq_true, beq_iff_eq]
  omega

theorem taskLe_trans (a b c : Task) :
    taskLe a b = true → taskLe b c = true → taskLe a c = true := by
  simp only [taskLe, Bool.or_eq_true, decide_eq_true_eq, Bool.and_eq_true, beq_iff_eq]
  omega

theorem summaryLe_total (a b : Task) : summaryLe a b = true ∨ summaryLe b a = true := by
  simp only [summaryLe, decide_eq_true_eq]
  omega

theorem summaryLe_trans (a b c : Task) :
    summaryLe a b = true → summaryLe b c = true → summaryLe a c = true := by
  simp only [summaryLe, decide_eq_true_eq]
  omega

/-! ## Membership helper lemmas -/

theorem mem_listTasks {args : ListArgs} {today : Nat} {ts : List Task} {t : Task} :
    t ∈ listTasks args today ts ↔ t ∈ ts ∧ passesFilter args today t = true := by
  unfold listTasks
  rw [mem_sortTasks, List.mem_filter]

theorem mem_searchTasks {q : String} {ts : List Task} {t : Task} :
    t ∈ searchTasks q ts →
      t ∈ ts ∧ (t.status == Status.archived) = false := by
  intro h
  rcases List.mem_filter.mp h with ⟨hmem, hp⟩
  refine ⟨hmem, ?_⟩
  cases hst : (t.status == Status.archived)
  · rfl
  · rw [hst] at hp
    simp at hp

theorem substrChars_nil (l : List Char) : substrChars [] l = true := by
  cases l <;> simp [substrChars, prefixChars]

theorem matchesTask_empty (t : Task) : matchesTask "" t = true := by
  simp [matchesTask, substrOf, lowerStr, substrChars_nil]

/-- `matchesTask` only looks at `id` and `title`, so completing a task keeps
it matched by the same fragment. -/
theorem matchesTask_complete (tid now : String) (t : Task) :
    matchesTask tid { t with status := Status.completed, completed_at := some now } =
      matchesTask tid t := by
  simp [matchesTask]

/-! ## Sample tasks used by concrete counterexamples and witnesses -/

def cexTaskA : Task :=
  { id := "a", title := "see b here", status := .pending, priority := none,
    due := none, tags := [], notes := none, created_at := "", completed_at := none }

def cexTaskB : Task :=
  { id := "b", title := "other", status := .pending, priority := none,
    due := none, tags := [], notes := none, created_at := "", completed_at := none }

def rentTask : Task :=
  { id := "task_1", title := "Pay rent", status := .pending, priority := some .low,
    due := none, tags := [], notes := none, created_at := "", completed_at := none }

/-! ## Claim theorems -/

/-- C1: the claim says `update(I, due=unparseable text)` succeeds and clears
the due field.  The code instead evaluates
`parse_due_date(due).isoformat() if due else None`: a non-empty unparseable
string makes `parse_due_date` return `None` and `.isoformat()` raises an
unhandled `AttributeError`.  Evaluated here at the failing input
`update_task("task_1", due="gibberish")` on a collection holding a task with
id `task_1`, with today = 2026-01-14 (ordinal 739630). -/
theorem update_unparseable_due_attr_error :
    updateTask 739630 "task_1" none (some "gibberish") none none none [rentTask] =
      UpdateRes.attrError := by decide

/-- C2 (counterexample): `add_task` performs no title validation at all.
`add("")` succeeds: it appends a fresh pending task with the empty title
instead of failing with a `ValidationError`. -/
theorem add_empty_title_no_validation_cex :
    (addTask 739630 "task_1" "2026-01-14T00:00:00Z" "" none none none none []).2 =
      [{ id := "task_1", title := "", status := .pending, priority := some .low,
         due := none, tags := [], notes := none,
         created_at := "2026-01-14T00:00:00Z", completed_at := none }] := by decide

/-- C2 (amended): `add` with an empty title is not a validation failure:
for every combination of the optional arguments it succeeds like any other
add, appending a pending task whose title is the empty string; the
repository performs no validation anywhere. -/
theorem add_empty_title_succeeds (today : Nat) (freshId now : String)
    (due : Option String) (priority : Option Priority)
    (tags : Option (List String)) (notes : Option String) (ts : List Task) :
    (addTask today freshId now "" due priority tags notes ts).2 =
      ts ++ [(addTask today freshId now "" due priority tags notes ts).1] ∧
    (addTask today freshId now "" due priority tags notes ts).1.title = "" ∧
    (addTask today freshId now "" due priority tags notes ts).1.status = .pending :=
  ⟨rfl, rfl, rfl⟩

/-- C4: the claim (and the source's own inline comment
`# This week (could be in past)`) says a `"this"` + weekday input resolves
within the current week and may fall strictly before today.  The code does
`if days_ahead < 0: days_ahead += 7`, so the result is never before today:
with today = Wednesday 2026-01-14 (ordinal 739630, weekday 2),
`"this monday"` yields 2026-01-19 (ordinal 739635, the *next* week's Monday)
instead of the current week's Monday 2026-01-12 (ordinal 739628). -/
theorem this_weekday_never_past :
    parseDueDate 739630 "this monday" = some 739635 ∧
    weekday 739630 = 2 ∧ weekday 739635 = 0 ∧ weekday 739628 = 0 ∧
    739630 < 739635 := by decide

/-- C10: the empty string matches every task (`"" in title` is always true
in Python), so `complete("")`/`delete("")` on a non-empty collection always
select the first task in stored order — an absent result is impossible. -/
theorem empty_fragment_matches_first (now : String) (archive : Bool)
    (t : Task) (rest : List Task) :
    (completeTask now "" (t :: rest)).result =
      some (if t.status == Status.completed then t
            else { t with status := .completed, completed_at := some now }) ∧
    (deleteTask "" archive (t :: rest)).1 =
      some (if archive then { t with status := .archived } else t) := by
  constructor
  · simp only [completeTask, matchesTask_empty, if_true]
    cases hst : (t.status == Status.completed) <;> simp [hst]
  · simp only [deleteTask, matchesTask_empty, if_true]
    cases archive <;> simp

/-- C3 (counterexample): the lookup is not two-phase.  The collection holds
a task with exact id `"b"`, yet `complete("b")` selects the earlier task
whose title contains `"b"` as a substring — the exact-id match is not tried
first. -/
theorem complete_not_two_phase_cex :
    ((completeTask "N" "b" [cexTaskA, cexTaskB]).result.map Task.id) = some "a" ∧
    cexTaskB.id = "b" ∧ cexTaskA.id ≠ "b" ∧
    ((deleteTask "b" true [cexTaskA, cexTaskB]).1.map Task.id) = some "a" := by decide

/-- C3 (amended): `complete` and `delete` resolve their argument in a
*single* scan of the collection in stored order: the first task whose id
equals the argument *or* whose title contains it as a case-insensitive
substring wins, so an earlier substring match beats a later exact-id match
(there is no separate exact-id phase). -/
theorem complete_delete_single_scan (now tid : String) (archive : Bool)
    (ts : List Task) :
    (ts.find? (matchesTask tid) = none →
       completeTask now tid ts = ⟨none, ts, false⟩ ∧
       deleteTask tid archive ts = (none, ts)) ∧
    (∀ t, ts.find? (matchesTask tid) = some t →
       (completeTask now tid ts).result =
         some (if t.status == Status.completed then t
               else { t with status := .completed, completed_at := some now }) ∧
       (deleteTask tid archive ts).1 =
         some (if archive then { t with status := .archived } else t)) := by
  induction ts with
  | nil =>
    refine ⟨fun _ => ⟨rfl, rfl⟩, fun t h => ?_⟩
    simp [List.find?] at h
  | cons t0 ts ih =>
    cases hm : matchesTask tid t0 with
    | true =>
      refine ⟨fun h => ?_, fun t h => ?_⟩
      · rw [List.find?_cons_of_pos _ hm] at h
        cases h
      · rw [List.find?_cons_of_pos _ hm] at h
        cases h
        constructor
        · simp only [completeTask, hm, if_true]
          cases hst : (t0.status == Status.completed) <;> simp [hst]
        · simp only [deleteTask, hm, if_true]
          cases archive <;> simp
    | false =>
      refine ⟨fun h => ?_, fun t h => ?_⟩
      · rw [List.find?_cons_of_neg _ (by simp [hm])] at h
        rcases (ih.1 h) with ⟨hc, hd⟩
        constructor
        · simp [completeTask, hm, hc]
        · simp [deleteTask, hm, hd]
      · rw [List.find?_cons_of_neg _ (by simp [hm])] at h
        rcases (ih.2 t h) with ⟨hc, hd⟩
        constructor
        · simp [completeTask, hm, hc]
        · simp [deleteTask, hm, hd]

/-- C8: `complete` is idempotent.  If the first matching task is already
completed, `complete` returns it unchanged, leaves the collection as it is
and performs no persistence write; consequently a second `complete` with
the same argument returns the same task — with the same `completed_at` —
without writing. -/
theorem complete_idempotent (now1 now2 tid : String) (ts : List Task) :
    (∀ t, ts.find? (matchesTask tid) = some t → t.status = Status.completed →
       completeTask now1 tid ts = ⟨some t, ts, false⟩) ∧
    (∀ t ts1 s1, completeTask now1 tid ts = ⟨some t, ts1, s1⟩ →
       completeTask now2 tid ts1 = ⟨some t, ts1, false⟩) := by
  induction ts with
  | nil =>
    refine ⟨fun t h => ?_, fun t ts1 s1 h => ?_⟩
    · simp [List.find?] at h
    · simp [completeTask] at h
  | cons t0 ts ih =>
    cases hm : matchesTask tid t0 with
    | true =>
      refine ⟨fun t h hst => ?_, fun t ts1 s1 h => ?_⟩
      · rw [List.find?_cons_of_pos _ hm] at h
        cases h
        have hb : (t0.status == Status.completed) = true := by
          simp [hst]
        simp [completeTask, hm, hb]
      · cases hst : (t0.status == Status.completed) with
        | true =>
          simp only [completeTask, hm, if_true, hst] at h
          cases h
          simp [completeTask, hm, hst]
        | false =>
          simp only [completeTask, hm, if_true, hst] at h
          cases h
          have hm1 : matchesTask tid
              { t0 with status := Status.completed, completed_at := some now1 } = true := by
            rw [matchesTask_complete]
            exact hm
          simp [completeTask, hm1]
    | false =>
      refine ⟨fun t h hst => ?_, fun t ts1 s1 h => ?_⟩
      · rw [List.find?_cons_of_neg _ (by simp [hm])] at h
        have := ih.1 t h hst
        simp [completeTask, hm, this]
      · simp only [completeTask, hm, Bool.false_eq_true, if_false] at h
        injection h with h1 h2 h3
        subst h2
        subst h3
        have h4 : completeTask now1 tid ts =
            ⟨some t, (completeTask now1 tid ts).tasks, (completeTask now1 tid ts).saved⟩ := by
          rw [← h1]
        have ihr := ih.2 t _ _ h4
        simp [completeTask, hm, ihr]

/-- C9: `update` matches by exact id only — a collection with no task of
that id is returned untouched even when titles contain the argument — and
when the update succeeds it rewrites exactly the matched task, overwriting
precisely the provided fields: every omitted field, every field outside the
five updatable ones, and every other task of the collection is unchanged. -/
theorem update_exact_id_frame (today : Nat) (tid : String)
    (title : Option String) (due : Option String) (priority : Option Priority)
    (tags : Option (List String)) (notes : Option String) :
    (∀ ts : List Task, (∀ u ∈ ts, u.id ≠ tid) →
       updateTask today tid title due priority tags notes ts = .ok none ts false) ∧
    (∀ (pre : List Task) (t : Task) (post : List Task) (t1 : Task),
       (∀ u ∈ pre, u.id ≠ tid) → t.id = tid →
       applyUpdate today title due priority tags notes t = some t1 →
       updateTask today tid title due priority tags notes (pre ++ t :: post) =
         .ok (some t1) (pre ++ t1 :: post) true) ∧
    (∀ (t t1 : Task), applyUpdate today title due priority tags notes t = some t1 →
       t1.id = t.id ∧ t1.status = t.status ∧ t1.created_at = t.created_at ∧
       t1.completed_at = t.completed_at ∧
       (title = none → t1.title = t.title) ∧
       (∀ v, title = some v → t1.title = v) ∧
       (due = none → t1.due = t.due) ∧
       (∀ s, due = some s →
          (s = "" → t1.due = none) ∧
          (s ≠ "" → ∀ d, parseDueDate today s = some d → t1.due = some d)) ∧
       (priority = none → t1.priority = t.priority) ∧
       (∀ p, priority = some p → t1.priority = some p) ∧
       (tags = none → t1.tags = t.tags) ∧
       (∀ l, tags = some l → t1.tags = l) ∧
       (notes = none → t1.notes = t.notes) ∧
       (∀ n, notes = some n → t1.notes = some n)) := by
  refine ⟨?_, ?_, ?_⟩
  · intro ts hts
    induction ts with
    | nil => rfl
    | cons t0 ts ih =>
      have h0 : (t0.id == tid) = false := by
        have := hts t0 (List.mem_cons_self t0 ts)
        simp [this]
      have ih1 := ih (fun u hu => hts u (List.mem_cons_of_mem t0 hu))
      simp [updateTask, h0, ih1]
  · intro pre t post t1 hpre ht h
    induction pre with
    | nil =>
      have h0 : (t.id == tid) = true := by simp [ht]
      simp [updateTask, h0, h]
    | cons p0 pre ih =>
      have h0 : (p0.id == tid) = false := by
        have := hpre p0 (List.mem_cons_self p0 pre)
        simp [this]
      have ih1 := ih (fun u hu => hpre u (List.mem_cons_of_mem p0 hu))
      simp only [List.cons_append]
      simp [updateTask, h0, ih1]
  · intro t t1 h
    rcases due with _ | s
    · simp only [applyUpdate, Option.map_some'] at h
      injection h with h
      subst h
      rcases title with _ | v <;> rcases priority with _ | p <;>
        rcases tags with _ | l <;> rcases notes with _ | n <;> simp
    · by_cases hs : s = ""
      · subst hs
        simp only [applyUpdate, show (("" : String) == "") = true from rfl,
          if_true, Option.map_some'] at h
        injection h with h
        subst h
        rcases title with _ | v <;> rcases priority with _ | p <;>
          rcases tags with _ | l <;> rcases notes with _ | n <;> simp
      · have hsb : (s == "") = false := by simp [hs]
        simp only [applyUpdate, hsb, Bool.false_eq_true, if_false] at h
        rcases hp : parseDueDate today s with _ | d0
        · rw [hp] at h
          simp at h
        · rw [hp] at h
          simp only [Option.map_some'] at h
          injection h with h
          subst h
          rcases title with _ | v <;> rcases priority with _ | p <;>
            rcases tags with _ | l <;> rcases notes with _ | n <;>
            simp [hs, hp]

/-- Structural facts about `delete(id, archive=true)`: the returned task is
archived, the id sequence of the collection is preserved, and (under unique
ids) `get` on the returned task's id finds exactly it. -/
theorem deleteTask_archive_aux (tid : String) (ts : List Task) :
    ∀ t ts1, deleteTask tid true ts = (some t, ts1) →
      t.status = Status.archived ∧ ts1.map Task.id = ts.map Task.id ∧
      ((ts.map Task.id).Nodup → getTask t.id ts1 = some t) := by
  induction ts with
  | nil =>
    intro t ts1 h
    simp [deleteTask] at h
  | cons t0 ts ih =>
    intro t ts1 h
    cases hm : matchesTask tid t0 with
    | true =>
      simp only [deleteTask, hm, if_true] at h
      injection h with h1 h2
      injection h1 with h1
      subst h1
      subst h2
      refine ⟨rfl, by simp, ?_⟩
      intro _
      simp [getTask, List.find?]
    | false =>
      simp only [deleteTask, hm, Bool.false_eq_true, if_false] at h
      injection h with h1 h2
      subst h2
      have h3 : deleteTask tid true ts = (some t, (deleteTask tid true ts).2) := by
        rw [← h1]
      rcases ih t _ h3 with ⟨hst, hmap, hget⟩
      refine ⟨hst, by simp [hmap], ?_⟩
      intro hnd
      have hnd2 : (ts.map Task.id).Nodup := (List.nodup_cons.mp hnd).2
      have hget2 := hget hnd2
      have htmem : t ∈ (deleteTask tid true ts).2 := by
        exact List.mem_of_find?_eq_some hget2
      have htid : t.id ∈ (deleteTask tid true ts).2.map Task.id :=
        List.mem_map_of_mem Task.id htmem
      rw [hmap] at htid
      have hne : (t0.id == t.id) = false := by
        have hne0 : t0.id ≠ t.id := by
          intro he
          exact (List.nodup_cons.mp hnd).1 (he ▸ htid)
        simp [hne0]
      simp [getTask, List.find?, hne]
      exact hget2

/-- C7: a task archived via `delete(id, archive=true)` is still returned by
`get` on its id (with status `archived`), is excluded from the default
listing (pending filter), and is excluded from `search` for every query. -/
theorem delete_archive_semantics (tid : String) (ts ts1 : List Task) (t : Task)
    (hnd : (ts.map Task.id).Nodup)
    (h : deleteTask tid true ts = (some t, ts1)) :
    t.status = Status.archived ∧
    getTask t.id ts1 = some t ∧
    (∀ today, t ∉ listTasks defaultListArgs today ts1) ∧
    (∀ q, t ∉ searchTasks q ts1) := by
  rcases deleteTask_archive_aux tid ts t ts1 h with ⟨hst, _, hget⟩
  refine ⟨hst, hget hnd, ?_, ?_⟩
  · intro today hmem
    rcases mem_listTasks.mp hmem with ⟨_, hp⟩
    simp [passesFilter, defaultListArgs, hst] at hp
  · intro q hmem
    have h2 := (mem_searchTasks hmem).2
    rw [hst] at h2
    simp at h2

/-- The spec's secondary ordering on due dates: ascending, with tasks
lacking a due date last. -/
def dueOptLe : Option Nat → Option Nat → Prop
  | some d, some e => d ≤ e
  | some _, none => True
  | none, none => True
  | none, some _ => False

theorem taskLe_to_spec_order (a b : Task)
    (hb : ∀ d, b.due = some d → d < dueSentinel)
    (h : taskLe a b = true) :
    priRank a.priority < priRank b.priority ∨
      (priRank a.priority = priRank b.priority ∧ dueOptLe a.due b.due) := by
  simp only [taskLe, taskKey, Bool.or_eq_true, decide_eq_true_eq, Bool.and_eq_true,
    beq_iff_eq] at h
  rcases h with h | ⟨he, hd⟩
  · exact Or.inl h
  · refine Or.inr ⟨he, ?_⟩
    rcases ha2 : a.due with _ | d <;> rcases hb2 : b.due with _ | e
    · trivial
    · exfalso
      have hlt := hb e hb2
      rw [ha2, hb2] at hd
      simp [dueKey] at hd
      omega
    · trivial
    · rw [ha2, hb2] at hd
      simpa [dueKey, dueOptLe] using hd

theorem taskKey_filter_comp (k : Nat × Nat) (a b : Task)
    (hpa : decide (taskKey a = k) = true) (hle : taskLe a b = false) :
    decide (taskKey b = k) = false := by
  cases hq : decide (taskKey b = k) with
  | false => rfl
  | true =>
    exfalso
    have h1 : taskKey a = k := of_decide_eq_true hpa
    have h2 : taskKey b = k := of_decide_eq_true hq
    have h3 : taskLe a b = true := by
      simp only [taskLe, h1, h2, Bool.or_eq_true, decide_eq_true_eq,
        Bool.and_eq_true, beq_iff_eq]
      exact Or.inr ⟨trivial, le_rfl⟩
    rw [h3] at hle
    cases hle

/-- C5: every `list` result is sorted with primary key priority rank
(high = 0, medium = 1, low = 2, unset = 3, ascending) and secondary key due
date ascending with tasks lacking a due date last, and the sort is stable:
for every key value, the subsequence of result tasks with that key is
exactly the filter-passing tasks with that key in stored collection order.
The validity hypothesis restricts due dates to the range Python `date` can
represent (below the `"9999-99-99"` sentinel). -/
theorem list_tasks_sorted_stable (args : ListArgs) (today : Nat) (ts : List Task)
    (hvalid : ∀ t ∈ ts, t.due.getD 0 < dueSentinel) :
    ((listTasks args today ts).Pairwise (fun a b =>
        priRank a.priority < priRank b.priority ∨
          (priRank a.priority = priRank b.priority ∧ dueOptLe a.due b.due))) ∧
    (∀ k : Nat × Nat,
       (listTasks args today ts).filter (fun t => decide (taskKey t = k)) =
         ts.filter (fun t => passesFilter args today t && decide (taskKey t = k))) := by
  constructor
  · have hp := pairwise_sortTasks taskLe taskLe_total taskLe_trans
      (ts.filter (passesFilter args today))
    refine List.Pairwise.imp_of_mem ?_ hp
    intro a b _ hbmem hab
    have hbts : b ∈ ts := (List.mem_filter.mp (mem_sortTasks.mp hbmem)).1
    refine taskLe_to_spec_order a b (fun d hd => ?_) hab
    have := hvalid b hbts
    rw [hd] at this
    exact this
  · intro k
    have hstab := filter_sortTasks taskLe (fun t => decide (taskKey t = k))
      (taskKey_filter_comp k) (ts.filter (passesFilter args today))
    rw [listTasks, hstab, List.filter_filter]
    congr 1
    funext t
    exact Bool.and_comm _ _

theorem isDueToday_iff (target : Nat) (u : Task) :
    isDueToday target u = true ↔
      u.status = Status.pending ∧ u.due = some target := by
  simp [isDueToday]

theorem isOverdueAt_iff (target : Nat) (u : Task) :
    isOverdueAt target u = true ↔
      u.status = Status.pending ∧ ∃ d, u.due = some d ∧ d < target := by
  rcases hdue : u.due with _ | d <;> simp [isOverdueAt, hdue]
  intro _ hd
  omega

theorem isHighBucket_iff (target : Nat) (u : Task) :
    isHighBucket target u = true ↔
      u.status = Status.pending ∧ u.priority = some Priority.high ∧
        u.due ≠ some target := by
  simp [isHighBucket]
  tauto

theorem mem_condSingleton_append {c : Bool} {a t : Task} {l : List Task} :
    t ∈ (if c then [a] else []) ++ l ↔ (c = true ∧ t = a) ∨ t ∈ l := by
  cases c <;> simp

theorem bucket_mem_step {p : Task → Bool} {Q : Task → Prop}
    (hp : ∀ u, p u = true ↔ Q u) {t0 t : Task} {ts l : List Task}
    (hl : t ∈ l ↔ t ∈ ts ∧ Q t) :
    t ∈ (if p t0 then [t0] else []) ++ l ↔ t ∈ t0 :: ts ∧ Q t := by
  rw [mem_condSingleton_append, hl, List.mem_cons]
  constructor
  · rintro (⟨hc, rfl⟩ | ⟨hmem, hq⟩)
    · exact ⟨Or.inl rfl, (hp t).mp hc⟩
    · exact ⟨Or.inr hmem, hq⟩
  · rintro ⟨rfl | hmem, hq⟩
    · exact Or.inl ⟨(hp t).mpr hq, rfl⟩
    · exact Or.inr ⟨hmem, hq⟩

theorem mem_collectSummary (target : Nat) (ts : List Task) :
    ∀ r, collectSummary target ts = some r → ∀ t : Task,
      (t ∈ r.1 ↔ t ∈ ts ∧ t.status = Status.pending ∧ t.due = some target) ∧
      (t ∈ r.2.1 ↔ t ∈ ts ∧ t.status = Status.pending ∧
        ∃ d, t.due = some d ∧ d < target) ∧
      (t ∈ r.2.2.2 ↔ t ∈ ts ∧ t.status = Status.pending ∧
        t.priority = some Priority.high ∧ t.due ≠ some target) := by
  induction ts with
  | nil =>
    intro r h t
    simp only [collectSummary] at h
    injection h with h
    subst h
    simp
  | cons t0 ts ih =>
    intro r h t
    simp only [collectSummary] at h
    rcases hct : completedTodayCheck target t0 with _ | ct <;> rw [hct] at h
    · simp at h
    · rcases hrec : collectSummary target ts with _ | r0 <;> rw [hrec] at h
      · simp at h
      · injection h with h
        subst h
        have ihr := ih r0 hrec t
        exact ⟨bucket_mem_step (isDueToday_iff target) ihr.1,
               bucket_mem_step (isOverdueAt_iff target) ihr.2.1,
               bucket_mem_step (isHighBucket_iff target) ihr.2.2⟩

/-- C6: in every `dailySummary(targetDate)` result, the `dueToday`,
`overdue` and `highPriority` buckets hold only currently-pending tasks, and
`highPriority` holds exactly the pending high-priority tasks whose due date
differs from `targetDate`, so a pending high-priority task due on
`targetDate` is in `dueToday` and never in `highPriority` (its membership
in the first iff contradicts the `due ≠ target` of the third). -/
theorem daily_summary_buckets (target : Nat) (ts : List Task) (s : Summary)
    (h : dailySummary target ts = some s) (t : Task) :
    (t ∈ s.due_today ↔ t ∈ ts ∧ t.status = Status.pending ∧
       t.due = some target) ∧
    (t ∈ s.overdue ↔ t ∈ ts ∧ t.status = Status.pending ∧
       ∃ d, t.due = some d ∧ d < target) ∧
    (t ∈ s.high_priority ↔ t ∈ ts ∧ t.status = Status.pending ∧
       t.priority = some Priority.high ∧ t.due ≠ some target) := by
  unfold dailySummary at h
  rcases hc : collectSummary target ts with _ | r <;> rw [hc] at h
  · simp at h
  · injection h with h
    subst h
    have hm := mem_collectSummary target ts r hc t
    refine ⟨?_, ?_, ?_⟩ <;> simp only [mem_sortTasks]
    · exact hm.1
    · exact hm.2.1
    · exact hm.2.2

/-! ## Witnesses: the hypothesis-bearing claim theorems applied at concrete
inputs -/

def wTaskLow : Task :=
  { id := "t1", title := "alpha", status := .pending, priority := some .low,
    due := some 50, tags := [], notes := none, created_at := "", completed_at := none }

def wTaskHighNoDue : Task :=
  { id := "t2", title := "beta", status := .pending, priority := some .high,
    due := none, tags := [], notes := none, created_at := "", completed_at := none }

def wTaskHighDue : Task :=
  { id := "t3", title := "gamma", status := .pending, priority := some .high,
    due := some 10, tags := [], notes := none, created_at := "", completed_at := none }

def wts5 : List Task := [wTaskLow, wTaskHighNoDue, wTaskHighDue]

/-- Witness for C5 at a concrete three-task collection. -/
theorem list_tasks_sorted_stable_witness :
    (∀ t ∈ wts5, t.due.getD 0 < dueSentinel) ∧
    ((listTasks defaultListArgs 100 wts5).filter
        (fun t => decide (taskKey t = (0, 10))) =
      wts5.filter (fun t => passesFilter defaultListArgs 100 t &&
        decide (taskKey t = (0, 10)))) :=
  ⟨by decide,
   (list_tasks_sorted_stable defaultListArgs 100 wts5 (by decide)).2 (0, 10)⟩

def wTask6 : Task :=
  { id := "w6", title := "pay rent", status := .pending, priority := some .high,
    due := none, tags := [], notes := none, created_at := "", completed_at := none }

def wSum6 : Summary :=
  (dailySummary 100 [wTask6]).getD ⟨0, [], [], [], [], ""⟩

/-- Witness for C6: a pending high-priority task with no due date lands in
the `high_priority` bucket of a concrete summary. -/
theorem daily_summary_buckets_witness :
    dailySummary 100 [wTask6] = some wSum6 ∧
    (wTask6 ∈ wSum6.high_priority ↔ wTask6 ∈ [wTask6] ∧
       wTask6.status = Status.pending ∧ wTask6.priority = some Priority.high ∧
       wTask6.due ≠ some 100) :=
  ⟨rfl, (daily_summary_buckets 100 [wTask6] wSum6 rfl wTask6).2.2⟩

def wTask7 : Task :=
  { id := "d1", title := "to archive", status := .pending, priority := some .low,
    due := none, tags := [], notes := none, created_at := "", completed_at := none }

def wTask7a : Task := { wTask7 with status := .archived }

/-- Witness for C7: archiving a concrete one-task collection. -/
theorem delete_archive_semantics_witness :
    ((([wTask7] : List Task).map Task.id).Nodup) ∧
    (deleteTask "d1" true [wTask7] = (some wTask7a, [wTask7a])) ∧
    (wTask7a.status = Status.archived ∧
     getTask wTask7a.id [wTask7a] = some wTask7a ∧
     (∀ today, wTask7a ∉ listTasks defaultListArgs today [wTask7a]) ∧
     (∀ q, wTask7a ∉ searchTasks q [wTask7a])) :=
  ⟨by decide, by decide,
   delete_archive_semantics "d1" [wTask7] [wTask7a] wTask7a (by decide) (by decide)⟩

def wTask8 : Task :=
  { id := "c1", title := "write report", status := .pending, priority := some .low,
    due := none, tags := [], notes := none, created_at := "", completed_at := none }

def wTask8c : Task :=
  { wTask8 with status := .completed, completed_at := some "T1" }

/-- Witness for C8: completing a concrete task twice keeps the first
`completed_at` and performs no second write. -/
theorem complete_idempotent_witness :
    completeTask "T1" "report" [wTask8] = ⟨some wTask8c, [wTask8c], true⟩ ∧
    completeTask "T2" "report" [wTask8c] = ⟨some wTask8c, [wTask8c], false⟩ :=
  ⟨by decide,
   (complete_idempotent "T1" "T2" "report" [wTask8]).2 wTask8c [wTask8c] true (by decide)⟩

def wTask9 : Task :=
  { id := "u1", title := "old", status := .pending, priority := some .low,
    due := some 5, tags := ["a"], notes := none, created_at := "", completed_at := none }

def wTask9u : Task := { wTask9 with title := "new" }

/-- Witness for C9: a title-only update of a concrete task rewrites the
title and leaves the omitted due field untouched. -/
theorem update_exact_id_frame_witness :
    (updateTask 100 "u1" (some "new") none none none none [wTask9] =
       .ok (some wTask9u) [wTask9u] true) ∧
    wTask9u.due = wTask9.due :=
  ⟨(update_exact_id_frame 100 "u1" (some "new") none none none none).2.1
      [] wTask9 [] wTask9u (by simp) rfl (by decide),
   ((update_exact_id_frame 100 "u1" (some "new") none none none none).2.2
      wTask9 wTask9u (by decide)).2.2.2.2.2.2.1 rfl⟩

/-- Witness for C3: the single-scan characterization applied at the
counterexample collection, where the first stored task matches `"b"` by
title substring. -/
theorem complete_delete_single_scan_witness :
    ([cexTaskA, cexTaskB].find? (matchesTask "b") = some cexTaskA) ∧
    ((completeTask "N" "b" [cexTaskA, cexTaskB]).result =
       some { cexTaskA with status := .completed, completed_at := some "N" }) ∧
    ((deleteTask "b" true [cexTaskA, cexTaskB]).1 =
       some { cexTaskA with status := .archived }) := by
  have h := (complete_delete_single_scan "N" "b" true [cexTaskA, cexTaskB]).2
    cexTaskA (by decide)
  exact ⟨by decide, h.1, h.2⟩

end Tasky
